import Mathlib

set_option maxHeartbeats 1000000

/-!
Shallow embedding of the imgc batch image converter core
(`src/converter/mod.rs`): path handling, the decode fallback chain
(`try_read_image` and `fallback_retry_read_image`), the per-file pipeline
(`convert_image`), the statistics fold and the dispatch loop of
`convert_images`.  OS strings (path components, file contents) are byte
lists; the external decoder/encoder collaborators are parameters
(`DecodeEnv`, `TaskEnv`), matching the spec's interface boundary.
-/

/-- OS byte string: a path component or file contents, as Rust compares
them (byte-wise). -/
abbrev ByteStr := List Nat

/-- Bytes of an ASCII string literal, for readable concrete inputs. -/
def str2bytes (s : String) : ByteStr := s.data.map Char.toNat

/-- A filesystem path, split as the components of its parent directory plus
its file name, mirroring `Path::parent` and `Path::file_name`. -/
structure RPath where
  dir : List ByteStr
  name : ByteStr
deriving DecidableEq

/-- The `.` byte, separating a file stem from its extension. -/
def dotByte : Nat := 46

/-- Splits a REVERSED file name at its first `.`: returns
`(reversed extension, reversed stem)`, or `none` when no dot occurs.
Working on the reversed name captures Rust's "last dot" rule. -/
def splitRevAtDot : ByteStr → Option (ByteStr × ByteStr)
  | [] => none
  | c :: rest =>
    if c = dotByte then some ([], rest)
    else
      match splitRevAtDot rest with
      | some (e, s) => some (c :: e, s)
      | none => none

/-- Model of `Path::extension` on a file name: the part after the last dot,
except that a name whose only dot is its first character (a hidden file
such as `.gitignore`) has no extension. -/
def nameExtension (name : ByteStr) : Option ByteStr :=
  match splitRevAtDot name.reverse with
  | some (extRev, stemRev) => if stemRev = [] then none else some extRev.reverse
  | none => none

/-- Model of `Path::file_stem`: the part before the last dot (or the whole
name when `nameExtension` is `none`). -/
def nameStem (name : ByteStr) : ByteStr :=
  match splitRevAtDot name.reverse with
  | some (_, stemRev) => if stemRev = [] then name else stemRev.reverse
  | none => name

/-- Model of `Path::with_extension` on a file name: stem plus the new
extension (just the stem when the new extension is empty). -/
def nameWithExtension (name : ByteStr) (e : ByteStr) : ByteStr :=
  if e = [] then nameStem name else nameStem name ++ dotByte :: e

/-- Replaces the extension of a path's file name, as
`PathBuf::with_extension` does. -/
def RPath.withExt (p : RPath) (e : ByteStr) : RPath :=
  { p with name := nameWithExtension p.name e }

/-- ASCII lower-casing of one byte (`to_ascii_lowercase`). -/
def lowerByte (b : Nat) : Nat := if 65 ≤ b ∧ b ≤ 90 then b + 32 else b

/-- The lower-cased extension of the input path, `""` when absent, as
computed at the top of `fallback_retry_read_image`. -/
def lowerExt (p : RPath) : ByteStr := ((nameExtension p.name).getD []).map lowerByte

/-- Extensions treated as JPEG by the fallback decoder. -/
def jpegExts : List ByteStr := [str2bytes "pjpeg", str2bytes "jpg", str2bytes "jpeg"]

/-- Extensions treated as PNG by the forced-format fallback. -/
def pngExts : List ByteStr := [str2bytes "x-png", str2bytes "png"]

/-- Outcome of one external decode attempt: a decoded image (opaque tag),
an ordinary decode error (opaque tag), or a runtime panic raised inside
the decoder dependency. -/
inductive Attempt where
  | ok (img : Nat)
  | err (e : Nat)
  | panicked (p : Nat)
deriving DecidableEq

/-- Outcome of the `jpeg_decoder` crate attempt inside
`fallback_retry_read_image`: `fail` covers a failed `File::open`, a failed
`decode()`, or missing `info()` (the code then falls through);
`rawConvertFail` is `RgbImage::from_raw` returning `None`. -/
inductive JpegOutcome where
  | fail
  | rawConvertFail
  | ok (img : Nat)
  | panicked (p : Nat)
deriving DecidableEq

/-- Errors a decode can surface: a boxed error carried over from one of the
`ImageReader` attempts, the raw-buffer conversion failure message, or an
`ImageReader::open` failure inside the fallback. -/
inductive DErr where
  | fromAttempt (e : Nat)
  | rawConvert
  | openErr (e : Nat)
deriving DecidableEq

/-- Result of the whole decode boundary.  `panicked` records a panic that
UNWINDS out of `try_read_image` (it is not a returned value in the code;
the model reifies the unwind so theorems can talk about it). -/
inductive DecodeResult where
  | ok (img : Nat)
  | err (e : DErr)
  | panicked (p : Nat)
deriving DecidableEq

/-- Behaviour of the external decoder libraries on one concrete input file:
one field per decode strategy of `try_read_image` and
`fallback_retry_read_image`. -/
structure DecodeEnv where
  /-- Strategy 1: `ImageReader::open(path)?.decode()` (extension-based). -/
  openDecode : Attempt
  /-- Strategy 2: `ImageReader::open(path)?.with_guessed_format()?.decode()`. -/
  guessedDecode : Attempt
  /-- The `jpeg_decoder` crate attempt (only consulted for JPEG extensions). -/
  jpegDec : JpegOutcome
  /-- The `ImageReader::open` in the forced-format fallback: `some e` is a
  failure with error `e`, `none` is success. -/
  forcedOpen : Option Nat
  /-- Decode with the format forced from the extension. -/
  forcedDecode : Attempt
deriving DecidableEq

/-- Embedding of `fallback_retry_read_image` (src/converter/mod.rs:313):
for JPEG extensions first try the `jpeg_decoder` crate, then reopen
forcing the codec implied by the extension; on failure return the error
`inputError` that was passed in. -/
def fallbackRetryReadImage (inputPath : RPath) (env : DecodeEnv)
    (inputError : Nat) : DecodeResult :=
  let ext := lowerExt inputPath
  let jpegStep : Option DecodeResult :=
    if ext ∈ jpegExts then
      match env.jpegDec with
      | .ok img => some (.ok img)
      | .rawConvertFail => some (.err .rawConvert)
      | .panicked p => some (.panicked p)
      | .fail => none
    else none
  match jpegStep with
  | some r => r
  | none =>
    match env.forcedOpen with
    | some e => .err (.openErr e)
    | none =>
      if ext ∈ jpegExts ∨ ext ∈ pngExts then
        match env.forcedDecode with
        | .ok img => .ok img
        | .err _ => .err (.fromAttempt inputError)
        | .panicked p => .panicked p
      else .err (.fromAttempt inputError)

/-- Embedding of `try_read_image` (src/converter/mod.rs:353).  Attempt 1 is
wrapped in `panic::catch_unwind`; on its failure (error or caught panic,
the error value being dropped) attempt 2 runs, also wrapped.  An attempt-2
error is passed to the fallback chain; a CAUGHT attempt-2 panic hits
`result.unwrap()` on the `Err` payload, which raises a fresh panic — the
model records that as `panicked`. -/
def tryReadImage (inputPath : RPath) (env : DecodeEnv) : DecodeResult :=
  match env.openDecode with
  | .ok img => .ok img
  | _ =>
    match env.guessedDecode with
    | .ok img => .ok img
    | .err e => fallbackRetryReadImage inputPath env e
    | .panicked p => .panicked p

/-- A filesystem snapshot: file contents keyed by path (first match wins),
plus the set of directories known to exist. -/
structure FS where
  files : List (RPath × ByteStr)
  dirs : List (List ByteStr)
deriving DecidableEq

/-- Contents of the file at `p`, when present. -/
def FS.lookupFile (fs : FS) (p : RPath) : Option ByteStr := fs.files.lookup p

/-- Model of `fs::exists` for a file path. -/
def FS.existsFile (fs : FS) (p : RPath) : Bool := (fs.lookupFile p).isSome

/-- Model of `fs::metadata(p)?.len()`: the byte length of the file. -/
def FS.fileSize (fs : FS) (p : RPath) : Option Nat := (fs.lookupFile p).map List.length

/-- Byte length of a file known to exist (0 when absent). -/
def FS.fileSizeD (fs : FS) (p : RPath) : Nat := (fs.fileSize p).getD 0

/-- Model of `fs::write`: replaces or creates the file at `p`. -/
def FS.writeFile (fs : FS) (p : RPath) (data : ByteStr) : FS :=
  { fs with files := (p, data) :: fs.files.filter (fun q => decide (q.1 ≠ p)) }

/-- Model of `fs::create_dir_all`: records the directory as existing. -/
def FS.createDirAll (fs : FS) (d : List ByteStr) : FS :=
  if d ∈ fs.dirs then fs else { fs with dirs := d :: fs.dirs }

/-- The subset of `CommonConfig` that `convert_image` consumes.  An empty
`output` list is the empty output string (convert in place). -/
structure Config where
  output : List ByteStr
  patternBase : List ByteStr
  overwriteIfSmaller : Bool
  overwriteExisting : Bool
  discardIfLargerThanInput : Bool
deriving DecidableEq

/-- All components of a path, parent directory then file name. -/
def RPath.components (p : RPath) : List ByteStr := p.dir ++ [p.name]

/-- Embedding of `normalize_prefix` (src/converter/mod.rs:382): drop the
LEADING current-directory (`.`) components, keep everything else. -/
def normalizeLead (cs : List ByteStr) : List ByteStr :=
  cs.dropWhile (fun c => decide (c = [dotByte]))

/-- Model of `strip_prefix(...).unwrap_or(input)`: remove `pre` from the
front of `l` when it is a prefix, otherwise keep `l` whole. -/
def stripPrefixOr (l pre : List ByteStr) : List ByteStr :=
  if pre.isPrefixOf l then l.drop pre.length else l

/-- Output-path computation of `convert_image` (src/converter/mod.rs:439):
with no output root, the input path with its extension replaced; with an
output root, output-root / (input relative to normalized pattern base,
parent only) / stem, with the target extension.  The second result is the
directory handed to `fs::create_dir_all` in the output-root branch. -/
def computeOutputPath (cfg : Config) (inputPath : RPath) (ext : ByteStr) :
    RPath × Option (List ByteStr) :=
  if cfg.output = [] then
    (inputPath.withExt ext, none)
  else
    let pbn := normalizeLead cfg.patternBase
    let ipn := normalizeLead inputPath.components
    let rel := stripPrefixOr ipn pbn
    let ipnName := ipn.getLastD []
    let outDir := cfg.output ++ rel.dropLast
    (⟨outDir, nameWithExtension (nameStem ipnName) ext⟩, some outDir)

/-- Behaviour of the external collaborators for one task: the decoder
libraries plus the selected format encoder (`encode(decoded_image,
options) -> bytes | EncodeError`; `none` is the failure case).  The
concrete encoders (webp, avif, png, mozjpeg) are collaborators outside
the core per the spec, so their output is a parameter. -/
structure TaskEnv where
  decode : DecodeEnv
  encodeResult : Option ByteStr
deriving DecidableEq

/-- How one `convert_image` call ends when it does not return a status
tuple: a filesystem error, a decode error propagated by `?`, an encoder
collaborator failure, or a panic unwinding out of the decode boundary. -/
inductive ConvErr where
  | fsError
  | decodeError (e : DErr)
  | encodeError
  | panicked (p : Nat)
deriving DecidableEq

/-- Return value of `convert_image`: `Ok` with the status tuple, or `Err`. -/
inductive ConvRes where
  | ok (r : Int × Nat × Nat)
  | error (e : ConvErr)
deriving DecidableEq

/-- Result of one `convert_image` call: the returned value (status code,
input size, output size — status 0 success, 1 skipped, 2 discarded) or an
error, plus the filesystem after the call and whether the decode/encode
stages ran. -/
structure ConvOut where
  res : ConvRes
  fs : FS
  didDecode : Bool
  didEncode : Bool
deriving DecidableEq

/-- Applies the `fs::create_dir_all` of the output-root branch of the path
computation (a no-op when converting in place). -/
def mkdirFS (fs : FS) (mk : Option (List ByteStr)) : FS :=
  match mk with
  | some d => fs.createDirAll d
  | none => fs

/-- Steps 2-8 of `convert_image` (src/converter/mod.rs:458), after the
output path is computed: input size, early-skip check, decode, encode,
overwrite-if-smaller check, discard check, write. -/
def convertImageSteps (cfg : Config) (inputPath outputPath : RPath)
    (env : TaskEnv) (fs1 : FS) : ConvOut :=
  match fs1.fileSize inputPath with
  | none => ⟨.error .fsError, fs1, false, false⟩
  | some inputSize =>
    if fs1.existsFile outputPath && !cfg.overwriteExisting && !cfg.overwriteIfSmaller then
      ⟨.ok (1, inputSize, fs1.fileSizeD outputPath), fs1, false, false⟩
    else
      match tryReadImage inputPath env.decode with
      | .err e => ⟨.error (.decodeError e), fs1, true, false⟩
      | .panicked p => ⟨.error (.panicked p), fs1, true, false⟩
      | .ok _ =>
        match env.encodeResult with
        | none => ⟨.error .encodeError, fs1, true, true⟩
        | some data =>
          let outputSize := data.length
          if fs1.existsFile outputPath && decide (outputSize ≥ fs1.fileSizeD outputPath) &&
              cfg.overwriteIfSmaller then
            ⟨.ok (1, inputSize, fs1.fileSizeD outputPath), fs1, true, true⟩
          else if cfg.discardIfLargerThanInput && decide (outputSize ≥ inputSize) then
            ⟨.ok (2, inputSize, outputSize), fs1, true, true⟩
          else
            ⟨.ok (0, inputSize, outputSize), fs1.writeFile outputPath data, true, true⟩

/-- Embedding of `convert_image` (src/converter/mod.rs:414): compute the
output path (running `create_dir_all` when an output root is set), then
run the remaining steps. -/
def convertImage (cfg : Config) (inputPath : RPath) (ext : ByteStr)
    (env : TaskEnv) (fs : FS) : ConvOut :=
  let pc := computeOutputPath cfg inputPath ext
  convertImageSteps cfg inputPath pc.1 env (mkdirFS fs pc.2)

/-- The outcome counters and byte totals of `convert_images`
(src/converter/mod.rs:191): there are exactly four outcome counters —
successful, skipped, discarded, errors — and six byte totals. -/
structure Stats where
  successful : Nat
  skipped : Nat
  discarded : Nat
  errors : Nat
  sizeInputTotal : Nat
  sizeOutputTotal : Nat
  sizeInputPre : Nat
  sizeOutputPre : Nat
  sizeInputDisc : Nat
  sizeOutputDisc : Nat
deriving DecidableEq

/-- All counters start at zero. -/
def initStats : Stats := ⟨0, 0, 0, 0, 0, 0, 0, 0, 0, 0⟩

/-- Embedding of the `match res.0` statistics update in the worker closure
(src/converter/mod.rs:220): statuses 0, 1, 2, -1 each bump their counter
(plus byte totals); any other status — in particular -2, aborted — falls
into the wildcard arm and changes nothing. -/
def updateStats (s : Stats) (r : Int × Nat × Nat) : Stats :=
  if r.1 = 0 then
    { s with successful := s.successful + 1,
             sizeInputTotal := s.sizeInputTotal + r.2.1,
             sizeOutputTotal := s.sizeOutputTotal + r.2.2 }
  else if r.1 = 1 then
    { s with skipped := s.skipped + 1,
             sizeInputTotal := s.sizeInputTotal + r.2.1,
             sizeOutputTotal := s.sizeOutputTotal + r.2.2,
             sizeInputPre := s.sizeInputPre + r.2.1,
             sizeOutputPre := s.sizeOutputPre + r.2.2 }
  else if r.1 = 2 then
    { s with discarded := s.discarded + 1,
             sizeInputDisc := s.sizeInputDisc + r.2.1,
             sizeOutputDisc := s.sizeOutputDisc + r.2.2 }
  else if r.1 = -1 then
    { s with errors := s.errors + 1 }
  else s

/-- Folds the per-task results of a whole run into the counters. -/
def runStats (rs : List (Int × Nat × Nat)) : Stats := rs.foldl updateStats initStats

/-- Lexicographic lift of a comparator to lists, as Rust compares the
component iterators of two paths (a strict prefix is smaller). -/
def lexCmp (cmp : α → α → Ordering) : List α → List α → Ordering
  | [], [] => .eq
  | [], _ :: _ => .lt
  | _ :: _, [] => .gt
  | a :: as, b :: bs =>
    match cmp a b with
    | .eq => lexCmp cmp as bs
    | o => o

/-- Byte-string comparison (Rust `OsStr` ordering). -/
def bytesCmp : ByteStr → ByteStr → Ordering := lexCmp compare

/-- Comparison of directory component lists (Rust `Path` ordering). -/
def dirsCmp : List ByteStr → List ByteStr → Ordering := lexCmp bytesCmp

/-- The comparator of `paths.sort_by` in `convert_images`
(src/converter/mod.rs:113): compare parent directories first, file names
only when the parents are equal. -/
def pathCmpBase (a b : RPath) : Ordering :=
  match dirsCmp a.dir b.dir with
  | .eq => bytesCmp a.name b.name
  | dirCmp => dirCmp

/-- The comparator actually passed to the sort: the base comparison,
reversed in place when `reverse_processing_order` is set. -/
def pathSortCmp (rev : Bool) (a b : RPath) : Ordering :=
  let c := pathCmpBase a b
  if rev then c.swap else c

/-- The path ordering step of `convert_images`: a stable sort by
`pathSortCmp`, as `Vec::sort_by` performs. -/
def sortPaths (rev : Bool) (ps : List RPath) : List RPath :=
  ps.mergeSort (fun a b => pathSortCmp rev a b != .gt)

/-- Everything a worker needs for one task: the shared config, the resolved
input path, the target format's extension, and the collaborator
behaviour on this input. -/
structure TaskSpec where
  cfg : Config
  input : RPath
  ext : ByteStr
  env : TaskEnv
deriving DecidableEq

/-- Observable events of a run: an external interrupt signal (the ctrl-c
handler, src/converter/mod.rs:164) or a worker pulling one task from the
queue (src/converter/mod.rs:206). -/
inductive Event where
  | interrupt
  | runTask (t : TaskSpec)
deriving DecidableEq

/-- Run state: the process-wide stop flag and interrupt counter, the
filesystem, the per-task results in completion order, and whether a panic
escaped a worker (which aborts the whole run). -/
structure Sys where
  flag : Bool
  counter : Nat
  fs : FS
  results : List (Int × Nat × Nat)
  crashed : Bool
deriving DecidableEq

/-- One step of the run.  An interrupt runs the ctrl-c handler: it sets the
flag when unset, and only counts (and prints) when already set.  A task
pull first consults the stop flag — when set, the task yields `(-2, 0, 0)`
(aborted) with no filesystem access; otherwise `convert_image` runs, an
`Err` becoming `(-1, 0, 0)` via `handle_conversion_error` and
`unwrap_or_else`, and an escaping panic crashing the run. -/
def step (s : Sys) (e : Event) : Sys :=
  match e with
  | .interrupt =>
    if s.flag then { s with counter := s.counter + 1 }
    else { s with flag := true, counter := s.counter + 1 }
  | .runTask t =>
    if s.crashed then s
    else if s.flag then { s with results := s.results ++ [(-2, 0, 0)] }
    else
      let out := convertImage t.cfg t.input t.ext t.env s.fs
      match out.res with
      | .error (.panicked _) => { s with crashed := true, fs := out.fs }
      | .error _ => { s with fs := out.fs, results := s.results ++ [(-1, 0, 0)] }
      | .ok r => { s with fs := out.fs, results := s.results ++ [r] }

/-- A whole run from a starting state. -/
def execRun (s : Sys) (tr : List Event) : Sys := tr.foldl step s

/-- The initial state of a run over filesystem `fs`. -/
def initSys (fs : FS) : Sys := ⟨false, 0, fs, [], false⟩

/-- Concrete input path with a `.bmp` extension (outside the fallback
extension lists). -/
def pBmpFix : RPath := ⟨[str2bytes "d"], str2bytes "x.bmp"⟩

/-- Concrete input path with a `.jpg` extension. -/
def pJpgFix : RPath := ⟨[str2bytes "d"], str2bytes "x.jpg"⟩

/-- Decoder behaviour where every strategy fails with an ordinary error:
strategy 1 errs with tag 1, strategy 2 with tag 2, the forced decode with
tag 9. -/
def envAllFail : DecodeEnv := ⟨.err 1, .err 2, .fail, none, .err 9⟩

/-- Decoder behaviour where strategy 1 errs and strategy 2 panics with
payload 7. -/
def envGuessPanics : DecodeEnv := ⟨.err 1, .panicked 7, .fail, none, .err 9⟩

/-- Decoder behaviour where strategies 1 and 2 err and the `jpeg_decoder`
crate panics with payload 8. -/
def envJpegPanics : DecodeEnv := ⟨.err 1, .err 2, .panicked 8, none, .err 9⟩

/-- C1 counterexample: with strategy 1 failing with error tag 1 and
strategy 2 (guessed format) failing with error tag 2, and every fallback
failing too, `try_read_image` surfaces the strategy-2 error, not the
strategy-1 error the claim requires. -/
theorem tryReadImage_surfaces_guessed_error_not_first :
    tryReadImage pBmpFix envAllFail = .err (.fromAttempt 2) ∧
    tryReadImage pBmpFix envAllFail ≠ .err (.fromAttempt 1) := by
  constructor <;> decide

/-- C1 amended: for every input file on which strategy 1 fails with an
ordinary error, strategy 2 (guessed-format decode) fails with error `e2`,
and all later fallback strategies fail without panicking (the
`jpeg_decoder` attempt falls through, the forced-format reopen succeeds
but its decode errs), the surfaced error is the strategy-2 error `e2` —
not the strategy-1 error and not an error of a later fallback. -/
theorem tryReadImage_error_of_all_fail (p : RPath) (env : DecodeEnv)
    (e1 e2 d : Nat)
    (h1 : env.openDecode = .err e1)
    (h2 : env.guessedDecode = .err e2)
    (hj : lowerExt p ∈ jpegExts → env.jpegDec = .fail)
    (ho : env.forcedOpen = none)
    (hf : env.forcedDecode = .err d) :
    tryReadImage p env = .err (.fromAttempt e2) := by
  unfold tryReadImage fallbackRetryReadImage
  rw [h1, h2, ho, hf]
  by_cases hmem : lowerExt p ∈ jpegExts
  · rw [hj hmem]
    simp [hmem]
  · simp only [hmem, if_false]
    by_cases hpng : lowerExt p ∈ pngExts <;> simp [hpng, hmem]

/-- C1 amended witness at a concrete input. -/
theorem tryReadImage_error_of_all_fail_witness :
    tryReadImage pBmpFix envAllFail = .err (.fromAttempt 2) :=
  tryReadImage_error_of_all_fail pBmpFix envAllFail 1 2 9
    (by decide) (by decide) (by decide) (by decide) (by decide)

/-- C2: the decode boundary does NOT convert every decoder panic into an
error value.  When the auto-detection attempt fails and the guessed-format
attempt panics, `try_read_image` calls `result.unwrap()` on the caught
panic payload, which raises a fresh panic that unwinds out of the decode
boundary (first conjunct); a panic inside the `jpeg_decoder` fallback is
not wrapped in `catch_unwind` at all and unwinds directly (second
conjunct).  Either panic crosses the worker closure and rayon terminates
the whole batch. -/
theorem tryReadImage_panic_escapes :
    tryReadImage pBmpFix envGuessPanics = .panicked 7 ∧
    tryReadImage pJpgFix envJpegPanics = .panicked 8 := by
  constructor <;> decide

/-- Sum of the four outcome counters that exist in the code. -/
def sumOutcome (s : Stats) : Nat := s.successful + s.skipped + s.discarded + s.errors

/-- One statistics update bumps the outcome-counter sum by exactly one for
statuses 0, 1, 2 and -1. -/
theorem sumOutcome_updateStats_counted (s : Stats) (r : Int × Nat × Nat)
    (h : r.1 = 0 ∨ r.1 = 1 ∨ r.1 = 2 ∨ r.1 = -1) :
    sumOutcome (updateStats s r) = sumOutcome s + 1 := by
  rcases h with h | h | h | h <;>
    simp [updateStats, sumOutcome, h] <;> omega

/-- An aborted result (status -2) falls into the wildcard arm and leaves
every counter unchanged. -/
theorem updateStats_aborted (s : Stats) (i o : Nat) :
    updateStats s (-2, i, o) = s := by
  simp [updateStats]

/-- C3 counterexample: a run that dispatches exactly one task, aborted by
the stop flag (status -2), ends with all four outcome counters at zero —
the aborted task increments no outcome counter, and there is no aborted
counter, so the claimed five-way sum over counters cannot equal the one
dispatched task. -/
theorem runStats_aborted_counts_nothing :
    runStats [((-2 : Int), 0, 0)] = initStats ∧
    sumOutcome (runStats [((-2 : Int), 0, 0)]) = 0 ∧
    [((-2 : Int), 0, 0)].length = 1 := by
  refine ⟨by decide, by decide, rfl⟩

/-- C3 amended, fold form: over any results whose statuses come from the
codes `convert_image` and the dispatcher produce (0, 1, 2, -1, -2), the
four outcome counters plus the COUNT of aborted results equals the number
of dispatched tasks; equivalently, each non-aborted task increments
exactly one counter and each aborted task increments none. -/
theorem sumOutcome_foldl (rs : List (Int × Nat × Nat)) :
    ∀ s : Stats,
      (∀ r ∈ rs, r.1 = 0 ∨ r.1 = 1 ∨ r.1 = 2 ∨ r.1 = -1 ∨ r.1 = -2) →
      sumOutcome (rs.foldl updateStats s) + rs.countP (fun r => decide (r.1 = -2)) =
        sumOutcome s + rs.length := by
  induction rs with
  | nil => intro s _; simp
  | cons r rs ih =>
    intro s hv
    have hrest : ∀ q ∈ rs, q.1 = 0 ∨ q.1 = 1 ∨ q.1 = 2 ∨ q.1 = -1 ∨ q.1 = -2 :=
      fun q hq => hv q (by simp [hq])
    have hind := ih (updateStats s r) hrest
    rcases hv r (by simp) with h | h | h | h | h
    · have hstep := sumOutcome_updateStats_counted s r (by tauto)
      simp only [List.foldl_cons, List.countP_cons, List.length_cons, h]
      norm_num
      omega
    · have hstep := sumOutcome_updateStats_counted s r (by tauto)
      simp only [List.foldl_cons, List.countP_cons, List.length_cons, h]
      norm_num
      omega
    · have hstep := sumOutcome_updateStats_counted s r (by tauto)
      simp only [List.foldl_cons, List.countP_cons, List.length_cons, h]
      norm_num
      omega
    · have hstep := sumOutcome_updateStats_counted s r (by tauto)
      simp only [List.foldl_cons, List.countP_cons, List.length_cons, h]
      norm_num
      omega
    · have habort : updateStats s r = s := by
        obtain ⟨st, i, o⟩ := r
        simp only at h
        subst h
        exact updateStats_aborted s i o
      rw [habort] at hind
      simp only [List.foldl_cons, List.countP_cons, List.length_cons, h, habort]
      norm_num
      omega

/-- C3 amended: in any run whose task results carry the status codes the
code produces, `successful + skipped + discarded + errors + (number of
aborted tasks) = total tasks dispatched`; the aborted count is not a
counter of the program — aborted tasks increment no outcome counter. -/
theorem runStats_sum (rs : List (Int × Nat × Nat))
    (hv : ∀ r ∈ rs, r.1 = 0 ∨ r.1 = 1 ∨ r.1 = 2 ∨ r.1 = -1 ∨ r.1 = -2) :
    sumOutcome (runStats rs) + rs.countP (fun r => decide (r.1 = -2)) = rs.length := by
  have := sumOutcome_foldl rs initStats hv
  simpa [runStats, sumOutcome, initStats] using this

/-- C3 amended witness: one task of each status code. -/
theorem runStats_sum_witness :
    sumOutcome (runStats [(0, 10, 5), (1, 3, 3), (2, 4, 9), (-1, 0, 0), (-2, 0, 0)]) +
      ([((0 : Int), 10, 5), (1, 3, 3), (2, 4, 9), (-1, 0, 0), (-2, 0, 0)].countP
        (fun r => decide (r.1 = -2))) = 5 :=
  runStats_sum [(0, 10, 5), (1, 3, 3), (2, 4, 9), (-1, 0, 0), (-2, 0, 0)] (by decide)

/-- Creating directories never changes file contents. -/
theorem FS.files_createDirAll (fs : FS) (d : List ByteStr) :
    (fs.createDirAll d).files = fs.files := by
  unfold FS.createDirAll
  split <;> rfl

/-- The path-computation mkdir never changes file contents. -/
theorem mkdirFS_files (fs : FS) (mk : Option (List ByteStr)) :
    (mkdirFS fs mk).files = fs.files := by
  cases mk <;> simp [mkdirFS, FS.files_createDirAll]

/-- File lookup is unaffected by the path-computation mkdir. -/
theorem mkdirFS_lookupFile (fs : FS) (mk : Option (List ByteStr)) (p : RPath) :
    (mkdirFS fs mk).lookupFile p = fs.lookupFile p := by
  simp [FS.lookupFile, mkdirFS_files]

/-- File existence is unaffected by the path-computation mkdir. -/
theorem mkdirFS_existsFile (fs : FS) (mk : Option (List ByteStr)) (p : RPath) :
    (mkdirFS fs mk).existsFile p = fs.existsFile p := by
  simp [FS.existsFile, mkdirFS_lookupFile]

/-- File sizes are unaffected by the path-computation mkdir. -/
theorem mkdirFS_fileSize (fs : FS) (mk : Option (List ByteStr)) (p : RPath) :
    (mkdirFS fs mk).fileSize p = fs.fileSize p := by
  simp [FS.fileSize, mkdirFS_lookupFile]

/-- Defaulted file sizes are unaffected by the path-computation mkdir. -/
theorem mkdirFS_fileSizeD (fs : FS) (mk : Option (List ByteStr)) (p : RPath) :
    (mkdirFS fs mk).fileSizeD p = fs.fileSizeD p := by
  simp [FS.fileSizeD, mkdirFS_fileSize]

/-- Step 3 of the pipeline in isolation: existing output and no overwrite
flags means an early `Skipped` return. -/
theorem convertImageSteps_early_skip (cfg : Config) (p outP : RPath)
    (env : TaskEnv) (fs1 : FS) (nIn : Nat)
    (hin : fs1.fileSize p = some nIn)
    (hex : fs1.existsFile outP = true)
    (hoe : cfg.overwriteExisting = false)
    (hois : cfg.overwriteIfSmaller = false) :
    convertImageSteps cfg p outP env fs1 =
      ⟨.ok (1, nIn, fs1.fileSizeD outP), fs1, false, false⟩ := by
  unfold convertImageSteps
  rw [hin]
  simp [hex, hoe, hois]

/-- C4: when the computed output path already exists and neither
overwrite-existing nor overwrite-if-smaller is set, the worker returns
`Skipped` carrying the input size and the existing output file's size,
runs neither decode nor encode, and changes no file contents. -/
theorem convertImage_skip_preexisting (cfg : Config) (p : RPath)
    (ext : ByteStr) (env : TaskEnv) (fs : FS) (nIn : Nat)
    (hin : fs.fileSize p = some nIn)
    (hex : fs.existsFile (computeOutputPath cfg p ext).1 = true)
    (hoe : cfg.overwriteExisting = false)
    (hois : cfg.overwriteIfSmaller = false) :
    (convertImage cfg p ext env fs).res =
      .ok (1, nIn, fs.fileSizeD (computeOutputPath cfg p ext).1) ∧
    (convertImage cfg p ext env fs).fs.files = fs.files ∧
    (convertImage cfg p ext env fs).didDecode = false ∧
    (convertImage cfg p ext env fs).didEncode = false := by
  have heq : convertImage cfg p ext env fs =
      ⟨.ok (1, nIn, (mkdirFS fs (computeOutputPath cfg p ext).2).fileSizeD
        (computeOutputPath cfg p ext).1),
       mkdirFS fs (computeOutputPath cfg p ext).2, false, false⟩ := by
    unfold convertImage
    exact convertImageSteps_early_skip cfg p _ env _ nIn
      (by rw [mkdirFS_fileSize]; exact hin)
      (by rw [mkdirFS_existsFile]; exact hex) hoe hois
  rw [heq]
  refine ⟨?_, ?_, rfl, rfl⟩
  · rw [mkdirFS_fileSizeD]
  · rw [mkdirFS_files]

/-- C4 witness: an input `x.png` converting in place to `x.webp` where
`x.webp` already exists with 3 bytes. -/
theorem convertImage_skip_preexisting_witness :
    (convertImage ⟨[], [], false, false, false⟩ ⟨[], str2bytes "x.png"⟩
        (str2bytes "webp")
        ⟨⟨.ok 5, .ok 5, .fail, none, .ok 5⟩, some [9, 9]⟩
        ⟨[(⟨[], str2bytes "x.webp"⟩, [0, 0, 0]),
          (⟨[], str2bytes "x.png"⟩, [1, 2, 3, 4])], []⟩).res =
      .ok (1, 4, 3) := by
  have h := convertImage_skip_preexisting ⟨[], [], false, false, false⟩
    ⟨[], str2bytes "x.png"⟩ (str2bytes "webp")
    ⟨⟨.ok 5, .ok 5, .fail, none, .ok 5⟩, some [9, 9]⟩
    ⟨[(⟨[], str2bytes "x.webp"⟩, [0, 0, 0]),
      (⟨[], str2bytes "x.png"⟩, [1, 2, 3, 4])], []⟩ 4
    (by decide) (by decide) rfl rfl
  calc (convertImage _ _ _ _ _).res
      = _ := h.1
    _ = .ok (1, 4, 3) := by decide

/-- C5: with discard-if-larger-than-input set, a task that passes the early
skip check and the overwrite-if-smaller check, decodes, and encodes to
`data` with `data.length ≥ input size` ends `Discarded` (status 2) with
the would-be encoded size reported as output bytes, and no file content
changes (nothing is written at the output path). -/
theorem convertImage_discard_larger (cfg : Config) (p : RPath)
    (ext : ByteStr) (env : TaskEnv) (fs : FS) (nIn img : Nat) (data : ByteStr)
    (hdisc : cfg.discardIfLargerThanInput = true)
    (hin : fs.fileSize p = some nIn)
    (hdec : tryReadImage p env.decode = .ok img)
    (henc : env.encodeResult = some data)
    (hge : data.length ≥ nIn)
    (hearly : (fs.existsFile (computeOutputPath cfg p ext).1 &&
        !cfg.overwriteExisting && !cfg.overwriteIfSmaller) = false)
    (hois : (fs.existsFile (computeOutputPath cfg p ext).1 &&
        decide (data.length ≥ fs.fileSizeD (computeOutputPath cfg p ext).1) &&
        cfg.overwriteIfSmaller) = false) :
    (convertImage cfg p ext env fs).res = .ok (2, nIn, data.length) ∧
    (convertImage cfg p ext env fs).fs.files = fs.files := by
  have hge' : decide (data.length ≥ nIn) = true := decide_eq_true hge
  unfold convertImage convertImageSteps
  simp only [mkdirFS_fileSize, mkdirFS_existsFile, mkdirFS_fileSizeD,
    hin, hdec, henc, hearly, hois, hdisc, hge', Bool.false_eq_true,
    if_false, Bool.true_and, if_true, mkdirFS_files]
  exact ⟨trivial, trivial⟩

/-- C5 witness: in-place conversion of a 4-byte `x.png` to a 5-byte encode
with no pre-existing output. -/
theorem convertImage_discard_larger_witness :
    (convertImage ⟨[], [], false, false, true⟩ ⟨[], str2bytes "x.png"⟩
        (str2bytes "webp")
        ⟨⟨.ok 5, .ok 5, .fail, none, .ok 5⟩, some [9, 9, 9, 9, 9]⟩
        ⟨[(⟨[], str2bytes "x.png"⟩, [1, 2, 3, 4])], []⟩).res =
      .ok (2, 4, 5) :=
  (convertImage_discard_larger ⟨[], [], false, false, true⟩
    ⟨[], str2bytes "x.png"⟩ (str2bytes "webp")
    ⟨⟨.ok 5, .ok 5, .fail, none, .ok 5⟩, some [9, 9, 9, 9, 9]⟩
    ⟨[(⟨[], str2bytes "x.png"⟩, [1, 2, 3, 4])], []⟩ 4 5 [9, 9, 9, 9, 9]
    rfl (by decide) (by decide) rfl (by decide) (by decide) (by decide)).1

/-- C6: with overwrite-if-smaller set, an existing output, and a successful
encode whose size is not smaller than the existing file, the worker
returns `Skipped` carrying the EXISTING file's size and changes no file
content.  The statement holds for every value of
`discard_if_larger_than_input` and every relation between the encoded
size and the input size, so the overwrite-if-smaller check decides before
the discard check can. -/
theorem convertImage_ois_keeps_existing (cfg : Config) (p : RPath)
    (ext : ByteStr) (env : TaskEnv) (fs : FS) (nIn img : Nat) (data : ByteStr)
    (hois : cfg.overwriteIfSmaller = true)
    (hin : fs.fileSize p = some nIn)
    (hex : fs.existsFile (computeOutputPath cfg p ext).1 = true)
    (hdec : tryReadImage p env.decode = .ok img)
    (henc : env.encodeResult = some data)
    (hge : data.length ≥ fs.fileSizeD (computeOutputPath cfg p ext).1) :
    (convertImage cfg p ext env fs).res =
      .ok (1, nIn, fs.fileSizeD (computeOutputPath cfg p ext).1) ∧
    (convertImage cfg p ext env fs).fs.files = fs.files := by
  have hge' : decide (data.length ≥ fs.fileSizeD (computeOutputPath cfg p ext).1) = true :=
    decide_eq_true hge
  unfold convertImage convertImageSteps
  simp only [mkdirFS_fileSize, mkdirFS_existsFile, mkdirFS_fileSizeD,
    hin, hdec, henc, hex, hois, hge', Bool.and_false, Bool.not_true,
    Bool.false_eq_true, if_false, Bool.true_and, Bool.and_true, if_true,
    mkdirFS_files]
  exact ⟨trivial, trivial⟩

/-- C6 witness: existing 3-byte `x.webp`, new 5-byte encode, discard flag
also set and the encode also at least as large as the input — still
`Skipped` with the existing size, not `Discarded`. -/
theorem convertImage_ois_keeps_existing_witness :
    (convertImage ⟨[], [], true, false, true⟩ ⟨[], str2bytes "x.png"⟩
        (str2bytes "webp")
        ⟨⟨.ok 5, .ok 5, .fail, none, .ok 5⟩, some [9, 9, 9, 9, 9]⟩
        ⟨[(⟨[], str2bytes "x.webp"⟩, [0, 0, 0]),
          (⟨[], str2bytes "x.png"⟩, [1, 2, 3, 4])], []⟩).res =
      .ok (1, 4, 3) := by
  have h := convertImage_ois_keeps_existing ⟨[], [], true, false, true⟩
    ⟨[], str2bytes "x.png"⟩ (str2bytes "webp")
    ⟨⟨.ok 5, .ok 5, .fail, none, .ok 5⟩, some [9, 9, 9, 9, 9]⟩
    ⟨[(⟨[], str2bytes "x.webp"⟩, [0, 0, 0]),
      (⟨[], str2bytes "x.png"⟩, [1, 2, 3, 4])], []⟩ 4 5 [9, 9, 9, 9, 9]
    rfl (by decide) (by decide) (by decide) rfl (by decide)
  calc (convertImage _ _ _ _ _).res
      = _ := h.1
    _ = .ok (1, 4, 3) := by decide

/-- Writing a file makes its contents the lookup result. -/
theorem FS.lookupFile_writeFile (fs : FS) (p : RPath) (data : ByteStr) :
    (fs.writeFile p data).lookupFile p = some data := by
  simp [FS.writeFile, FS.lookupFile, List.lookup]

/-- Case analysis on the pipeline steps: either the filesystem is returned
untouched, or the run ended in a status-0 success that wrote the encoded
bytes to the output path. -/
theorem convertImageSteps_fs_cases (cfg : Config) (p outP : RPath)
    (env : TaskEnv) (fs1 : FS) :
    (convertImageSteps cfg p outP env fs1).fs = fs1 ∨
    ∃ nIn data, env.encodeResult = some data ∧
      (convertImageSteps cfg p outP env fs1).res = .ok (0, nIn, data.length) ∧
      (convertImageSteps cfg p outP env fs1).fs = fs1.writeFile outP data := by
  cases hsz : fs1.fileSize p with
  | none => left; simp [convertImageSteps, hsz]
  | some nIn =>
    by_cases h1 : (fs1.existsFile outP && !cfg.overwriteExisting &&
        !cfg.overwriteIfSmaller) = true
    · left; simp [convertImageSteps, hsz, h1]
    · cases hdec : tryReadImage p env.decode with
      | err e => left; simp [convertImageSteps, hsz, h1, hdec]
      | panicked q => left; simp [convertImageSteps, hsz, h1, hdec]
      | ok img =>
        cases henc : env.encodeResult with
        | none => left; simp [convertImageSteps, hsz, h1, hdec, henc]
        | some data =>
          by_cases h2 : (fs1.existsFile outP &&
              decide (data.length ≥ fs1.fileSizeD outP) &&
              cfg.overwriteIfSmaller) = true
          · left; simp [convertImageSteps, hsz, h1, hdec, henc, h2]
          · by_cases h3 : (cfg.discardIfLargerThanInput &&
                decide (data.length ≥ nIn)) = true
            · left; simp [convertImageSteps, hsz, h1, hdec, henc, h2, h3]
            · right
              refine ⟨nIn, data, rfl, ?_, ?_⟩ <;>
                simp [convertImageSteps, hsz, h1, hdec, henc, h2, h3]

/-- C9 amended: a task whose outcome is anything but a status-0 success
(skipped, discarded, or failed) changes no FILE contents; and with no
output root configured, it leaves the whole filesystem — directories
included — exactly as found.  (With an output root, directory creation
happens during step 1, before the skip/decode/encode steps; that is the
part of the original claim the counterexample refutes.) -/
theorem convertImage_no_success_no_mutation (cfg : Config) (p : RPath)
    (ext : ByteStr) (env : TaskEnv) (fs : FS)
    (hns : ∀ a b : Nat, (convertImage cfg p ext env fs).res ≠ .ok (0, a, b)) :
    (convertImage cfg p ext env fs).fs.files = fs.files ∧
    (cfg.output = [] → (convertImage cfg p ext env fs).fs = fs) := by
  have hcases := convertImageSteps_fs_cases cfg p
    (computeOutputPath cfg p ext).1 env (mkdirFS fs (computeOutputPath cfg p ext).2)
  rcases hcases with hfs | ⟨a, data, _, hres, _⟩
  · have hfs' : (convertImage cfg p ext env fs).fs =
        mkdirFS fs (computeOutputPath cfg p ext).2 := hfs
    constructor
    · rw [hfs', mkdirFS_files]
    · intro hout
      have hnone : (computeOutputPath cfg p ext).2 = none := by
        simp [computeOutputPath, hout]
      rw [hfs', hnone]
      rfl
  · exact absurd hres (hns a data.length)

/-- Concrete fixture: an output root `out/`, pattern base empty, no
overwrite flags. -/
def cfgOutFix : Config := ⟨[str2bytes "out"], [], false, false, false⟩

/-- Concrete fixture: a 4-byte input `in/x.png` and no directories. -/
def fsOutFix : FS := ⟨[(⟨[str2bytes "in"], str2bytes "x.png"⟩, [1, 2, 3, 4])], []⟩

/-- Concrete fixture: a task environment whose decode fails everywhere. -/
def envFailFix : TaskEnv := ⟨⟨.err 1, .err 2, .fail, none, .err 9⟩, some [9, 9]⟩

/-- C9 counterexample: with an output root configured, a task that FAILS
(decode error) still mutates the filesystem — `create_dir_all` ran during
output-path computation (step 1), before the decode, so the failed task
does not leave the filesystem as it found it. -/
theorem convertImage_failed_task_created_dirs :
    (convertImage cfgOutFix ⟨[str2bytes "in"], str2bytes "x.png"⟩
        (str2bytes "webp") envFailFix fsOutFix).res =
      .error (.decodeError (.fromAttempt 2)) ∧
    (convertImage cfgOutFix ⟨[str2bytes "in"], str2bytes "x.png"⟩
        (str2bytes "webp") envFailFix fsOutFix).fs ≠ fsOutFix := by
  constructor <;> decide

/-- C9 amended witness: an in-place skipped task (existing `x.webp`, no
overwrite flags) leaves the whole filesystem unchanged. -/
theorem convertImage_no_success_no_mutation_witness :
    (convertImage ⟨[], [], false, false, false⟩ ⟨[], str2bytes "x.png"⟩
        (str2bytes "webp")
        ⟨⟨.ok 5, .ok 5, .fail, none, .ok 5⟩, some [9, 9]⟩
        ⟨[(⟨[], str2bytes "x.webp"⟩, [0, 0, 0]),
          (⟨[], str2bytes "x.png"⟩, [1, 2, 3, 4])], []⟩).fs.files =
      [(⟨[], str2bytes "x.webp"⟩, [0, 0, 0]),
       (⟨[], str2bytes "x.png"⟩, [1, 2, 3, 4])] ∧
    (([] : List ByteStr) = [] →
      (convertImage ⟨[], [], false, false, false⟩ ⟨[], str2bytes "x.png"⟩
          (str2bytes "webp")
          ⟨⟨.ok 5, .ok 5, .fail, none, .ok 5⟩, some [9, 9]⟩
          ⟨[(⟨[], str2bytes "x.webp"⟩, [0, 0, 0]),
            (⟨[], str2bytes "x.png"⟩, [1, 2, 3, 4])], []⟩).fs =
        ⟨[(⟨[], str2bytes "x.webp"⟩, [0, 0, 0]),
          (⟨[], str2bytes "x.png"⟩, [1, 2, 3, 4])], []⟩) :=
  convertImage_no_success_no_mutation ⟨[], [], false, false, false⟩
    ⟨[], str2bytes "x.png"⟩ (str2bytes "webp")
    ⟨⟨.ok 5, .ok 5, .fail, none, .ok 5⟩, some [9, 9]⟩
    ⟨[(⟨[], str2bytes "x.webp"⟩, [0, 0, 0]),
      (⟨[], str2bytes "x.png"⟩, [1, 2, 3, 4])], []⟩
    (by
      intro a b h
      rw [show (convertImage ⟨[], [], false, false, false⟩
          ⟨[], str2bytes "x.png"⟩ (str2bytes "webp")
          ⟨⟨.ok 5, .ok 5, .fail, none, .ok 5⟩, some [9, 9]⟩
          ⟨[(⟨[], str2bytes "x.webp"⟩, [0, 0, 0]),
            (⟨[], str2bytes "x.png"⟩, [1, 2, 3, 4])], []⟩).res =
        .ok (1, 4, 3) from by decide] at h
      simp at h)

/-- Splitting at the first dot of a reversed name reconstructs the name:
the input is the extension part, the dot, then the stem part. -/
theorem splitRevAtDot_append : ∀ l e s : ByteStr,
    splitRevAtDot l = some (e, s) → l = e ++ dotByte :: s := by
  intro l
  induction l with
  | nil => intro e s h; simp [splitRevAtDot] at h
  | cons c rest ih =>
    intro e s h
    by_cases hc : c = dotByte
    · rw [splitRevAtDot, if_pos hc] at h
      simp only [Option.some.injEq, Prod.mk.injEq] at h
      obtain ⟨he, hs⟩ := h
      subst he; subst hs; subst hc
      rfl
    · rw [splitRevAtDot, if_neg hc] at h
      cases hr : splitRevAtDot rest with
      | none => rw [hr] at h; exact absurd h (by simp)
      | some pr =>
        obtain ⟨e', s'⟩ := pr
        rw [hr] at h
        simp only [Option.some.injEq, Prod.mk.injEq] at h
        obtain ⟨he, hs⟩ := h
        rw [← he, ← hs, List.cons_append, ← ih e' s' hr]

/-- A file name that HAS an extension is its stem, a dot, then that
extension; so replacing the extension with itself is the identity.  This
is the step that makes an in-place conversion target the source file when
the source already carries the target extension. -/
theorem nameWithExtension_self (name e : ByteStr)
    (he : nameExtension name = some e) (hne : e ≠ []) :
    nameWithExtension name e = name := by
  unfold nameExtension at he
  cases hsp : splitRevAtDot name.reverse with
  | none => rw [hsp] at he; exact absurd he (by simp)
  | some pr =>
    obtain ⟨extRev, stemRev⟩ := pr
    simp only [hsp] at he
    by_cases hst : stemRev = []
    · rw [if_pos hst] at he; exact absurd he (by simp)
    · rw [if_neg hst] at he
      have heq : e = extRev.reverse := by
        simpa using he.symm
      have hname : name = stemRev.reverse ++ dotByte :: extRev.reverse := by
        have := splitRevAtDot_append name.reverse extRev stemRev hsp
        have h2 : name.reverse.reverse = (extRev ++ dotByte :: stemRev).reverse := by
          rw [this]
        simpa using h2
      have hstem : nameStem name = stemRev.reverse := by
        unfold nameStem
        simp only [hsp]
        rw [if_neg hst]
      rw [nameWithExtension, if_neg hne, hstem, heq, hname]

/-- Extension replacement at the path level: a path whose name already ends
in the (nonempty) target extension is unchanged by `with_extension`. -/
theorem RPath.withExt_self (p : RPath) (e : ByteStr)
    (he : nameExtension p.name = some e) (hne : e ≠ []) :
    p.withExt e = p := by
  obtain ⟨d, n⟩ := p
  simp only [RPath.withExt]
  rw [nameWithExtension_self n e he hne]

/-- A file with a recorded size exists. -/
theorem FS.existsFile_of_fileSize (fs : FS) (p : RPath) (n : Nat)
    (h : fs.fileSize p = some n) : fs.existsFile p = true := by
  unfold FS.fileSize at h
  unfold FS.existsFile
  cases hl : fs.lookupFile p with
  | none => rw [hl] at h; exact absurd h (by simp)
  | some d => rfl

/-- A file's defaulted size agrees with its recorded size. -/
theorem FS.fileSizeD_of_fileSize (fs : FS) (p : RPath) (n : Nat)
    (h : fs.fileSize p = some n) : fs.fileSizeD p = n := by
  unfold FS.fileSizeD
  rw [h]
  rfl

/-- C10: with no output root, the output path is the input path with its
extension replaced (conjunct 1); a path already carrying the (nonempty)
target extension is its own output path (conjunct 2); hence such an input
is `Skipped` when no overwrite flag is set (conjunct 3), and with
overwrite-existing set (and the other policies off) the encode is written
over the source file itself (conjunct 4). -/
theorem convertImage_inplace_same_extension :
    (∀ (cfg : Config) (p : RPath) (e : ByteStr), cfg.output = [] →
      (computeOutputPath cfg p e).1 = p.withExt e) ∧
    (∀ (p : RPath) (e : ByteStr), nameExtension p.name = some e → e ≠ [] →
      p.withExt e = p) ∧
    (∀ (cfg : Config) (p : RPath) (e : ByteStr) (env : TaskEnv) (fs : FS)
      (nIn : Nat), cfg.output = [] → nameExtension p.name = some e → e ≠ [] →
      fs.fileSize p = some nIn → cfg.overwriteExisting = false →
      cfg.overwriteIfSmaller = false →
      convertImage cfg p e env fs = ⟨.ok (1, nIn, nIn), fs, false, false⟩) ∧
    (∀ (cfg : Config) (p : RPath) (e : ByteStr) (env : TaskEnv) (fs : FS)
      (nIn img : Nat) (data : ByteStr), cfg.output = [] →
      nameExtension p.name = some e → e ≠ [] →
      fs.fileSize p = some nIn → cfg.overwriteExisting = true →
      cfg.overwriteIfSmaller = false → cfg.discardIfLargerThanInput = false →
      tryReadImage p env.decode = .ok img → env.encodeResult = some data →
      (convertImage cfg p e env fs).res = .ok (0, nIn, data.length) ∧
      (convertImage cfg p e env fs).fs.lookupFile p = some data) := by
  refine ⟨?_, ?_, ?_, ?_⟩
  · intro cfg p e hout
    simp [computeOutputPath, hout]
  · intro p e he hne
    exact RPath.withExt_self p e he hne
  · intro cfg p e env fs nIn hout hext hne hin hoe hois
    have hpath : computeOutputPath cfg p e = (p, none) := by
      simp [computeOutputPath, hout, RPath.withExt_self p e hext hne]
    have hconv : convertImage cfg p e env fs =
        convertImageSteps cfg p (computeOutputPath cfg p e).1 env
          (mkdirFS fs (computeOutputPath cfg p e).2) := rfl
    rw [hconv, hpath]
    have hex : fs.existsFile p = true := FS.existsFile_of_fileSize fs p nIn hin
    have hskip := convertImageSteps_early_skip cfg p p env fs nIn hin hex hoe hois
    calc convertImageSteps cfg p ((p, none).1) env (mkdirFS fs (p, none).2)
        = convertImageSteps cfg p p env fs := rfl
      _ = ⟨.ok (1, nIn, fs.fileSizeD p), fs, false, false⟩ := hskip
      _ = ⟨.ok (1, nIn, nIn), fs, false, false⟩ := by
          rw [FS.fileSizeD_of_fileSize fs p nIn hin]
  · intro cfg p e env fs nIn img data hout hext hne hin hoe hois hdisc hdec henc
    have hpath : computeOutputPath cfg p e = (p, none) := by
      simp [computeOutputPath, hout, RPath.withExt_self p e hext hne]
    have hconv : convertImage cfg p e env fs =
        convertImageSteps cfg p (computeOutputPath cfg p e).1 env
          (mkdirFS fs (computeOutputPath cfg p e).2) := rfl
    have hconv2 : convertImage cfg p e env fs = convertImageSteps cfg p p env fs := by
      rw [hconv, hpath]
      rfl
    have hsteps : convertImageSteps cfg p p env fs =
        ⟨.ok (0, nIn, data.length), fs.writeFile p data, true, true⟩ := by
      unfold convertImageSteps
      rw [hin]
      simp [hoe, hois, hdisc, hdec, henc]
    rw [hconv2, hsteps]
    exact ⟨rfl, FS.lookupFile_writeFile fs p data⟩

/-- C10 witness: `x.webp` converting in place to webp — its output path is
itself; without overwrite flags the 3-byte source is skipped; with
overwrite-existing set the 2-byte encode replaces the source. -/
theorem convertImage_inplace_same_extension_witness :
    (computeOutputPath ⟨[], [], false, false, false⟩ ⟨[], str2bytes "x.webp"⟩
        (str2bytes "webp")).1 =
      RPath.withExt ⟨[], str2bytes "x.webp"⟩ (str2bytes "webp") ∧
    RPath.withExt ⟨[], str2bytes "x.webp"⟩ (str2bytes "webp") =
      ⟨[], str2bytes "x.webp"⟩ ∧
    convertImage ⟨[], [], false, false, false⟩ ⟨[], str2bytes "x.webp"⟩
        (str2bytes "webp") ⟨⟨.ok 5, .ok 5, .fail, none, .ok 5⟩, some [9, 9]⟩
        ⟨[(⟨[], str2bytes "x.webp"⟩, [1, 2, 3])], []⟩ =
      ⟨.ok (1, 3, 3), ⟨[(⟨[], str2bytes "x.webp"⟩, [1, 2, 3])], []⟩,
        false, false⟩ ∧
    (convertImage ⟨[], [], false, true, false⟩ ⟨[], str2bytes "x.webp"⟩
        (str2bytes "webp") ⟨⟨.ok 5, .ok 5, .fail, none, .ok 5⟩, some [9, 9]⟩
        ⟨[(⟨[], str2bytes "x.webp"⟩, [1, 2, 3])], []⟩).res =
      .ok (0, 3, 2) ∧
    (convertImage ⟨[], [], false, true, false⟩ ⟨[], str2bytes "x.webp"⟩
        (str2bytes "webp") ⟨⟨.ok 5, .ok 5, .fail, none, .ok 5⟩, some [9, 9]⟩
        ⟨[(⟨[], str2bytes "x.webp"⟩, [1, 2, 3])], []⟩).fs.lookupFile
        ⟨[], str2bytes "x.webp"⟩ =
      some [9, 9] := by
  refine ⟨convertImage_inplace_same_extension.1 _ _ _ rfl,
    convertImage_inplace_same_extension.2.1 _ _ (by decide) (by decide),
    ?_, ?_, ?_⟩
  · exact convertImage_inplace_same_extension.2.2.1 _ _ _ _ _ 3 rfl
      (by decide) (by decide) (by decide) rfl rfl
  · exact (convertImage_inplace_same_extension.2.2.2 _ _ _ _ _ 3 5 [9, 9] rfl
      (by decide) (by decide) (by decide) rfl rfl rfl (by decide) rfl).1
  · exact (convertImage_inplace_same_extension.2.2.2 _ _ _ _ _ 3 5 [9, 9] rfl
      (by decide) (by decide) (by decide) rfl rfl rfl (by decide) rfl).2

/-- Pulling a task never changes the stop flag. -/
theorem step_flag_runTask (s : Sys) (t : TaskSpec) :
    (step s (.runTask t)).flag = s.flag := by
  simp only [step]
  split
  · rfl
  · split
    · rfl
    · split <;> rfl

/-- The flag is set after a run exactly when the run saw an interrupt (or
started with the flag already set). -/
theorem execRun_flag : ∀ (tr : List Event) (s : Sys),
    (execRun s tr).flag = true ↔ (s.flag = true ∨ Event.interrupt ∈ tr) := by
  intro tr
  induction tr with
  | nil => intro s; simp [execRun]
  | cons e tr ih =>
    intro s
    have hcons : execRun s (e :: tr) = execRun (step s e) tr := rfl
    rw [hcons, ih]
    cases e with
    | interrupt =>
      have hstep : (step s .interrupt).flag = true := by
        by_cases hf : s.flag <;> simp [step, hf]
      simp [hstep]
    | runTask t =>
      rw [step_flag_runTask]
      simp

/-- C8: (1) starting from an unset flag, the flag is set after a run if and
only if an interrupt occurred — it transitions unset-to-set at most once,
on the first interrupt, and nothing else sets or clears it; (2) an
interrupt arriving with the flag already set only increments the message
counter, changing nothing else; (3) a task pulled with the flag set is
recorded as `Aborted` (status -2) and the filesystem is untouched — no
file I/O happens for it.  (A task pulled with the flag unset runs
`convert_image` as one atomic step, mirroring the code's single read of
the stop flag per task: work in progress is never interrupted.) -/
theorem stopFlag_behaviour :
    (∀ (fs : FS) (tr : List Event),
      (execRun (initSys fs) tr).flag = true ↔ Event.interrupt ∈ tr) ∧
    (∀ s : Sys, s.flag = true →
      step s .interrupt = { s with counter := s.counter + 1 }) ∧
    (∀ (s : Sys) (t : TaskSpec), s.flag = true → s.crashed = false →
      step s (.runTask t) = { s with results := s.results ++ [(-2, 0, 0)] }) := by
  refine ⟨?_, ?_, ?_⟩
  · intro fs tr
    rw [execRun_flag tr (initSys fs)]
    simp [initSys]
  · intro s h
    simp [step, h]
  · intro s t h hc
    simp [step, h, hc]

/-- Concrete fixture: a one-file filesystem for run witnesses. -/
def fsRunFix : FS := ⟨[(⟨[], str2bytes "a.png"⟩, [1, 2])], []⟩

/-- Concrete fixture: a task over `a.png`. -/
def taskFix : TaskSpec :=
  ⟨⟨[], [], false, false, false⟩, ⟨[], str2bytes "a.png"⟩, str2bytes "webp",
    ⟨⟨.ok 5, .ok 5, .fail, none, .ok 5⟩, some [9]⟩⟩

/-- C8 witness: a run consisting of one interrupt ends with the flag set; a
second interrupt on a set-flag state only bumps the counter; a task
pulled on a set-flag state is aborted with the filesystem untouched. -/
theorem stopFlag_behaviour_witness :
    ((execRun (initSys fsRunFix) [Event.interrupt]).flag = true ↔
      Event.interrupt ∈ [Event.interrupt]) ∧
    step ⟨true, 1, fsRunFix, [], false⟩ .interrupt =
      ⟨true, 2, fsRunFix, [], false⟩ ∧
    step ⟨true, 1, fsRunFix, [], false⟩ (.runTask taskFix) =
      ⟨true, 1, fsRunFix, [(-2, 0, 0)], false⟩ :=
  ⟨stopFlag_behaviour.1 fsRunFix [Event.interrupt],
   stopFlag_behaviour.2.1 ⟨true, 1, fsRunFix, [], false⟩ rfl,
   stopFlag_behaviour.2.2 ⟨true, 1, fsRunFix, [], false⟩ taskFix rfl rfl⟩

/-- Nat comparison swaps under argument exchange. -/
theorem natCompare_swap (a b : Nat) : compare b a = (compare a b).swap := by
  rcases Nat.lt_trichotomy a b with h | h | h
  · rw [Nat.compare_eq_lt.2 h, Nat.compare_eq_gt.2 h]
    rfl
  · rw [Nat.compare_eq_eq.2 h, Nat.compare_eq_eq.2 h.symm]
    rfl
  · rw [Nat.compare_eq_gt.2 h, Nat.compare_eq_lt.2 h]
    rfl

/-- Nat comparison is transitive in its strict part. -/
theorem natCompare_trans_lt (a b c : Nat) (h1 : compare a b = .lt)
    (h2 : compare b c = .lt) : compare a c = .lt :=
  Nat.compare_eq_lt.2 (Nat.lt_trans (Nat.compare_eq_lt.1 h1) (Nat.compare_eq_lt.1 h2))

/-- Lexicographic comparison detects equality when the element comparison
does. -/
theorem lexCmp_eq_iff {α : Type} (cmp : α → α → Ordering)
    (he : ∀ a b, cmp a b = .eq ↔ a = b) :
    ∀ l m, lexCmp cmp l m = .eq ↔ l = m := by
  intro l
  induction l with
  | nil => intro m; cases m <;> simp [lexCmp]
  | cons a as ih =>
    intro m
    cases m with
    | nil => simp [lexCmp]
    | cons b bs =>
      simp only [lexCmp]
      cases hc : cmp a b with
      | eq =>
        have hab : a = b := (he a b).1 hc
        simp [hab, ih bs]
      | lt =>
        have hne : a ≠ b := fun h =>
          Ordering.noConfusion (((he a b).2 h).symm.trans hc)
        simp [hne]
      | gt =>
        have hne : a ≠ b := fun h =>
          Ordering.noConfusion (((he a b).2 h).symm.trans hc)
        simp [hne]

/-- Lexicographic comparison swaps under argument exchange when the element
comparison does. -/
theorem lexCmp_swap {α : Type} (cmp : α → α → Ordering)
    (hs : ∀ a b, cmp b a = (cmp a b).swap) :
    ∀ l m, lexCmp cmp m l = (lexCmp cmp l m).swap := by
  intro l
  induction l with
  | nil => intro m; cases m <;> rfl
  | cons a as ih =>
    intro m
    cases m with
    | nil => rfl
    | cons b bs =>
      simp only [lexCmp]
      rw [hs a b]
      cases hc : cmp a b with
      | eq => simpa using ih bs
      | lt => rfl
      | gt => rfl

/-- Lexicographic comparison is transitive in its strict part. -/
theorem lexCmp_trans_lt {α : Type} (cmp : α → α → Ordering)
    (he : ∀ a b, cmp a b = .eq ↔ a = b)
    (ht : ∀ a b c, cmp a b = .lt → cmp b c = .lt → cmp a c = .lt) :
    ∀ l m n, lexCmp cmp l m = .lt → lexCmp cmp m n = .lt →
      lexCmp cmp l n = .lt := by
  intro l
  induction l with
  | nil =>
    intro m n h1 h2
    cases m with
    | nil => exact absurd h1 (by simp [lexCmp])
    | cons b bs =>
      cases n with
      | nil => exact absurd h2 (by simp [lexCmp])
      | cons c cs => simp [lexCmp]
  | cons a as ih =>
    intro m n h1 h2
    cases m with
    | nil => exact absurd h1 (by simp [lexCmp])
    | cons b bs =>
      cases n with
      | nil => exact absurd h2 (by simp [lexCmp])
      | cons c cs =>
        simp only [lexCmp] at h1 h2 ⊢
        cases hab : cmp a b with
        | gt => rw [hab] at h1; exact absurd h1 (by simp)
        | eq =>
          have hab' : a = b := (he a b).1 hab
          rw [hab] at h1
          cases hbc : cmp b c with
          | gt => rw [hbc] at h2; exact absurd h2 (by simp)
          | eq =>
            have hbc' : b = c := (he b c).1 hbc
            rw [hbc] at h2
            rw [show cmp a c = .eq from (he a c).2 (hab'.trans hbc')]
            exact ih bs cs (by simpa using h1) (by simpa using h2)
          | lt =>
            rw [show cmp a c = .lt from hab' ▸ hbc]
        | lt =>
          cases hbc : cmp b c with
          | gt => rw [hbc] at h2; exact absurd h2 (by simp)
          | eq =>
            have hbc' : b = c := (he b c).1 hbc
            rw [show cmp a c = .lt from hbc' ▸ hab]
          | lt =>
            rw [ht a b c hab hbc]

/-- Byte-string comparison detects equality. -/
theorem bytesCmp_eq_iff (l m : ByteStr) : bytesCmp l m = .eq ↔ l = m :=
  lexCmp_eq_iff compare (fun _ _ => Nat.compare_eq_eq) l m

/-- Byte-string comparison swaps under argument exchange. -/
theorem bytesCmp_swap (l m : ByteStr) : bytesCmp m l = (bytesCmp l m).swap :=
  lexCmp_swap compare natCompare_swap l m

/-- Byte-string comparison is transitive in its strict part. -/
theorem bytesCmp_trans_lt (l m n : ByteStr) :
    bytesCmp l m = .lt → bytesCmp m n = .lt → bytesCmp l n = .lt :=
  lexCmp_trans_lt compare (fun _ _ => Nat.compare_eq_eq) natCompare_trans_lt l m n

/-- Directory comparison detects equality. -/
theorem dirsCmp_eq_iff (l m : List ByteStr) : dirsCmp l m = .eq ↔ l = m :=
  lexCmp_eq_iff bytesCmp bytesCmp_eq_iff l m

/-- Directory comparison swaps under argument exchange. -/
theorem dirsCmp_swap (l m : List ByteStr) : dirsCmp m l = (dirsCmp l m).swap :=
  lexCmp_swap bytesCmp bytesCmp_swap l m

/-- Directory comparison is transitive in its strict part. -/
theorem dirsCmp_trans_lt (l m n : List ByteStr) :
    dirsCmp l m = .lt → dirsCmp m n = .lt → dirsCmp l n = .lt :=
  lexCmp_trans_lt bytesCmp bytesCmp_eq_iff bytesCmp_trans_lt l m n

/-- Reduction: equal parents fall through to the file-name comparison. -/
theorem pathCmpBase_dirs_eq (a b : RPath) (h : dirsCmp a.dir b.dir = .eq) :
    pathCmpBase a b = bytesCmp a.name b.name := by
  unfold pathCmpBase
  rw [h]

/-- Reduction: strictly smaller parents decide the comparison. -/
theorem pathCmpBase_dirs_lt (a b : RPath) (h : dirsCmp a.dir b.dir = .lt) :
    pathCmpBase a b = .lt := by
  unfold pathCmpBase
  rw [h]

/-- Reduction: strictly larger parents decide the comparison. -/
theorem pathCmpBase_dirs_gt (a b : RPath) (h : dirsCmp a.dir b.dir = .gt) :
    pathCmpBase a b = .gt := by
  unfold pathCmpBase
  rw [h]

/-- The sort comparator detects equality: two paths compare equal exactly
when parent directory and file name agree. -/
theorem pathCmpBase_eq_iff (a b : RPath) : pathCmpBase a b = .eq ↔ a = b := by
  cases hd : dirsCmp a.dir b.dir with
  | eq =>
    rw [pathCmpBase_dirs_eq a b hd, bytesCmp_eq_iff]
    have hdeq : a.dir = b.dir := (dirsCmp_eq_iff _ _).1 hd
    constructor
    · intro hn
      obtain ⟨d1, n1⟩ := a
      obtain ⟨d2, n2⟩ := b
      simp only at hdeq hn
      rw [hdeq, hn]
    · intro h
      rw [h]
  | lt =>
    rw [pathCmpBase_dirs_lt a b hd]
    constructor
    · intro h
      exact absurd h (by simp)
    · intro h
      rw [h] at hd
      rw [(dirsCmp_eq_iff b.dir b.dir).2 rfl] at hd
      exact absurd hd (by simp)
  | gt =>
    rw [pathCmpBase_dirs_gt a b hd]
    constructor
    · intro h
      exact absurd h (by simp)
    · intro h
      rw [h] at hd
      rw [(dirsCmp_eq_iff b.dir b.dir).2 rfl] at hd
      exact absurd hd (by simp)

/-- The sort comparator swaps under argument exchange. -/
theorem pathCmpBase_swap (a b : RPath) :
    pathCmpBase b a = (pathCmpBase a b).swap := by
  cases hd : dirsCmp a.dir b.dir with
  | eq =>
    have hd' : dirsCmp b.dir a.dir = .eq := by
      rw [dirsCmp_swap a.dir b.dir, hd]
      rfl
    rw [pathCmpBase_dirs_eq a b hd, pathCmpBase_dirs_eq b a hd',
      bytesCmp_swap a.name b.name]
  | lt =>
    have hd' : dirsCmp b.dir a.dir = .gt := by
      rw [dirsCmp_swap a.dir b.dir, hd]
      rfl
    rw [pathCmpBase_dirs_lt a b hd, pathCmpBase_dirs_gt b a hd']
    rfl
  | gt =>
    have hd' : dirsCmp b.dir a.dir = .lt := by
      rw [dirsCmp_swap a.dir b.dir, hd]
      rfl
    rw [pathCmpBase_dirs_gt a b hd, pathCmpBase_dirs_lt b a hd']
    rfl

/-- The sort comparator is transitive in its strict part. -/
theorem pathCmpBase_trans_lt (a b c : RPath) (h1 : pathCmpBase a b = .lt)
    (h2 : pathCmpBase b c = .lt) : pathCmpBase a c = .lt := by
  cases hab : dirsCmp a.dir b.dir with
  | gt => rw [pathCmpBase_dirs_gt a b hab] at h1; exact absurd h1 (by simp)
  | eq =>
    have hab' : a.dir = b.dir := (dirsCmp_eq_iff _ _).1 hab
    rw [pathCmpBase_dirs_eq a b hab] at h1
    cases hbc : dirsCmp b.dir c.dir with
    | gt => rw [pathCmpBase_dirs_gt b c hbc] at h2; exact absurd h2 (by simp)
    | eq =>
      have hbc' : b.dir = c.dir := (dirsCmp_eq_iff _ _).1 hbc
      rw [pathCmpBase_dirs_eq b c hbc] at h2
      rw [pathCmpBase_dirs_eq a c ((dirsCmp_eq_iff _ _).2 (hab'.trans hbc'))]
      exact bytesCmp_trans_lt _ _ _ h1 h2
    | lt =>
      exact pathCmpBase_dirs_lt a c (hab' ▸ hbc)
  | lt =>
    cases hbc : dirsCmp b.dir c.dir with
    | gt => rw [pathCmpBase_dirs_gt b c hbc] at h2; exact absurd h2 (by simp)
    | eq =>
      have hbc' : b.dir = c.dir := (dirsCmp_eq_iff _ _).1 hbc
      exact pathCmpBase_dirs_lt a c (hbc' ▸ hab)
    | lt =>
      exact pathCmpBase_dirs_lt a c (dirsCmp_trans_lt _ _ _ hab hbc)

/-- The reversed comparator is the base comparator with arguments
exchanged. -/
theorem pathSortCmp_true_eq (a b : RPath) :
    pathSortCmp true a b = pathCmpBase b a :=
  (pathCmpBase_swap a b).symm

/-- The forward comparator is the base comparator. -/
theorem pathSortCmp_false_eq (a b : RPath) :
    pathSortCmp false a b = pathCmpBase a b := rfl

/-- The at-most relation induced by the comparator is transitive. -/
theorem pathCmpBase_notGt_trans (a b c : RPath)
    (h1 : pathCmpBase a b ≠ .gt) (h2 : pathCmpBase b c ≠ .gt) :
    pathCmpBase a c ≠ .gt := by
  cases hab : pathCmpBase a b with
  | gt => exact absurd hab h1
  | eq =>
    have hab' : a = b := (pathCmpBase_eq_iff a b).1 hab
    rw [hab']
    exact h2
  | lt =>
    cases hbc : pathCmpBase b c with
    | gt => exact absurd hbc h2
    | eq =>
      have hbc' : b = c := (pathCmpBase_eq_iff b c).1 hbc
      rw [← hbc', hab]
      simp
    | lt =>
      rw [pathCmpBase_trans_lt a b c hab hbc]
      simp

/-- The at-most relation induced by the comparator is total. -/
theorem pathCmpBase_notGt_total (a b : RPath) :
    pathCmpBase a b ≠ .gt ∨ pathCmpBase b a ≠ .gt := by
  cases h : pathCmpBase a b with
  | gt =>
    right
    rw [pathCmpBase_swap a b, h]
    decide
  | lt => left; simp
  | eq => left; simp

/-- The at-most relation induced by the comparator is antisymmetric. -/
theorem pathCmpBase_notGt_antisymm (a b : RPath)
    (h1 : pathCmpBase a b ≠ .gt) (h2 : pathCmpBase b a ≠ .gt) : a = b := by
  cases h : pathCmpBase a b with
  | eq => exact (pathCmpBase_eq_iff a b).1 h
  | gt => exact absurd h h1
  | lt =>
    exfalso
    apply h2
    rw [pathCmpBase_swap a b, h]
    rfl

/-- Boolean test against `gt` read back as a proposition. -/
theorem ordNotGtBne (x : Ordering) : ((x != Ordering.gt) = true) ↔ x ≠ Ordering.gt := by
  cases x <;> decide

/-- Transitivity of the sort's boolean predicate, both directions. -/
theorem pathLeB_trans (rev : Bool) : ∀ a b c : RPath,
    (pathSortCmp rev a b != .gt) = true → (pathSortCmp rev b c != .gt) = true →
    (pathSortCmp rev a c != .gt) = true := by
  intro a b c h1 h2
  rw [ordNotGtBne] at h1 h2 ⊢
  cases rev
  · rw [pathSortCmp_false_eq] at h1 h2 ⊢
    exact pathCmpBase_notGt_trans a b c h1 h2
  · rw [pathSortCmp_true_eq] at h1 h2 ⊢
    exact pathCmpBase_notGt_trans c b a h2 h1

/-- Totality of the sort's boolean predicate, both directions. -/
theorem pathLeB_total (rev : Bool) : ∀ a b : RPath,
    ((pathSortCmp rev a b != .gt) || (pathSortCmp rev b a != .gt)) = true := by
  intro a b
  rw [Bool.or_eq_true, ordNotGtBne, ordNotGtBne]
  cases rev
  · rw [pathSortCmp_false_eq, pathSortCmp_false_eq]
    exact pathCmpBase_notGt_total a b
  · rw [pathSortCmp_true_eq, pathSortCmp_true_eq]
    exact pathCmpBase_notGt_total b a

/-- The sorted output is a permutation of the input. -/
theorem sortPaths_perm (rev : Bool) (ps : List RPath) :
    List.Perm (sortPaths rev ps) ps :=
  List.mergeSort_perm ps _

/-- The sorted output is pairwise ordered by the comparator used. -/
theorem sortPaths_sorted (rev : Bool) (ps : List RPath) :
    (sortPaths rev ps).Pairwise (fun a b => pathSortCmp rev a b ≠ .gt) := by
  have h := List.sorted_mergeSort (pathLeB_trans rev) (pathLeB_total rev) ps
  exact h.imp (fun hab => (ordNotGtBne _).1 hab)

/-- Reversing the comparator in place yields exactly the reverse of the
forward sorted order. -/
theorem sortPaths_true_eq_reverse (ps : List RPath) :
    sortPaths true ps = (sortPaths false ps).reverse := by
  haveI : IsAntisymm RPath (fun a b => pathCmpBase a b ≠ .gt) :=
    ⟨pathCmpBase_notGt_antisymm⟩
  have hFs : (sortPaths false ps).Pairwise (fun a b => pathCmpBase a b ≠ .gt) := by
    have h := sortPaths_sorted false ps
    exact h.imp (fun hab => pathSortCmp_false_eq .. ▸ hab)
  have hRs : (sortPaths true ps).Pairwise (fun a b => pathCmpBase b a ≠ .gt) := by
    have h := sortPaths_sorted true ps
    exact h.imp (fun hab => pathSortCmp_true_eq .. ▸ hab)
  have hRrev : (sortPaths true ps).reverse.Pairwise
      (fun a b => pathCmpBase a b ≠ .gt) := by
    rw [List.pairwise_reverse]
    exact hRs
  have hperm : List.Perm (sortPaths true ps).reverse (sortPaths false ps) :=
    ((sortPaths true ps).reverse_perm.trans (sortPaths_perm true ps)).trans
      (sortPaths_perm false ps).symm
  have heq : (sortPaths true ps).reverse = sortPaths false ps :=
    List.eq_of_perm_of_sorted hperm hRrev hFs
  calc sortPaths true ps
      = (sortPaths true ps).reverse.reverse := (List.reverse_reverse _).symm
    _ = (sortPaths false ps).reverse := by rw [heq]

/-- Concrete path `a/1.png`. -/
def pA1Fix : RPath := ⟨[str2bytes "a"], str2bytes "1.png"⟩

/-- Concrete path `a/2.png`. -/
def pA2Fix : RPath := ⟨[str2bytes "a"], str2bytes "2.png"⟩

/-- Concrete path `b/1.png`. -/
def pB1Fix : RPath := ⟨[str2bytes "b"], str2bytes "1.png"⟩

unseal List.merge List.mergeSort in
/-- C7: the resolved processing order is a permutation of the matched paths
sorted by the parent-directory-then-filename comparator; the
reverse-processing-order flag yields exactly the reverse of the forward
order (same comparator, reversed in place); and on the spec's example
`["b/1.png","a/2.png","a/1.png"]` the forward order is
`["a/1.png","a/2.png","b/1.png"]` and the reversed order its exact
reverse. -/
theorem sortPaths_spec :
    (∀ ps : List RPath, List.Perm (sortPaths false ps) ps ∧
      (sortPaths false ps).Pairwise (fun a b => pathCmpBase a b ≠ .gt)) ∧
    (∀ ps : List RPath, sortPaths true ps = (sortPaths false ps).reverse) ∧
    sortPaths false [pB1Fix, pA2Fix, pA1Fix] = [pA1Fix, pA2Fix, pB1Fix] ∧
    sortPaths true [pB1Fix, pA2Fix, pA1Fix] = [pB1Fix, pA2Fix, pA1Fix] := by
  refine ⟨?_, sortPaths_true_eq_reverse, ?_, ?_⟩
  · intro ps
    refine ⟨sortPaths_perm false ps, ?_⟩
    have h := sortPaths_sorted false ps
    exact h.imp (fun hab => pathSortCmp_false_eq .. ▸ hab)
  · rfl
  · rfl
